import Mathlib

/-!
Shallow embedding of the Split-Data pipeline (src/Split_Data.py).

The program loads tabular or spatial files into pandas DataFrames /
geopandas GeoDataFrames, infers geometry (convert_to_geodf), concatenates
them (pd.concat), and re-partitions the combined frame by one or two
columns (DataFrame.groupby), writing per-group CSV/Excel/GeoJSON/KML
artifacts into a zip archive.

Modelling decisions for the library calls the source makes:
- Cells are strings, integers, nulls (NaN/None) or geometry objects.
- shapely's WKT reader (`wkt.loads`) is modelled on the POINT fragment of
  the WKT grammar with integer coordinates; a string outside that fragment
  fails to parse, which models the WKTReadingError the real reader raises.
  This is enough to distinguish parse success from parse failure, which is
  all the claims depend on.
- `geopandas.GeoDataFrame(df, geometry=series)` stores the geometry under
  geopandas' default geometry column name "geometry" (replacing an
  existing column of that name, else appending it), and the resulting
  frame's active geometry column is "geometry".  The rest of the program
  (`drop(columns="geometry")`, re-wrapping the pd.concat result) relies on
  that name.
- `geopandas.points_from_xy` coerces both coordinate columns with
  numpy float conversion: numbers pass through, missing values become NaN
  coordinates (still producing a point), and a non-numeric string raises,
  which the source catches with a bare `except`, abandoning the fallback.
  Numeric-string coercion is modelled for integer literals.
- `pd.concat(..., ignore_index=True)` takes the union of the columns in
  first-seen order, filling missing cells with null, and concatenates rows
  in source order.
- `DataFrame.groupby(col)` with its defaults (`sort=True, dropna=True`)
  drops rows whose key is null and iterates the distinct keys in ascending
  sorted order; each group keeps its rows in original order.
- Artifacts are modelled at the column/row level (the serialized bytes of
  `to_csv` / `to_file` carry exactly the retained columns and rows);
  `to_crs(epsg=4326)` is the identity because every inferred frame is
  created with crs="EPSG:4326".
-/

namespace SplitData

/-- Geometry values; the POINT fragment of WKT is all the pipeline's claims
need.  A `none` coordinate models a NaN coordinate. -/
inductive Geom where
| point (x y : Option Int)
deriving DecidableEq

/-- One cell of a frame: string, integer, null (NaN/None) or geometry. -/
inductive Cell where
| vStr (s : String)
| vNum (n : Int)
| vNull
| vGeom (g : Geom)
deriving DecidableEq

/-- A (Geo)DataFrame: named columns, rows of cells, and the active geometry
column (`none` for a plain DataFrame). -/
structure Frame where
  cols : List String
  rows : List (List Cell)
  geomCol : Option String
deriving DecidableEq

/-- `isinstance(d, gpd.GeoDataFrame)`. -/
def isGDF (f : Frame) : Bool := f.geomCol.isSome

/-- `pd.notnull`. -/
def notnullB (c : Cell) : Bool := !(c == Cell.vNull)

/-- Well-formedness: every row has one cell per column (the Record Set
invariant pandas maintains). -/
def wfB (f : Frame) : Bool := f.rows.all (fun r => r.length == f.cols.length)

/-- WKT rendering of a geometry, as `str()` of a shapely point. -/
def geomWkt : Geom → String
| .point (some x) (some y) => "POINT (" ++ toString x ++ " " ++ toString y ++ ")"
| .point _ _ => "POINT (nan nan)"

/-- `str(x)` for a cell that is not null. -/
def cellStr : Cell → String
| .vStr s => s
| .vNum n => toString n
| .vNull => "None"
| .vGeom g => geomWkt g

/-- `str(value)` as used by safe_name on a group key. -/
def pyStr : Cell → String
| .vStr s => s
| .vNum n => toString n
| .vNull => "nan"
| .vGeom g => geomWkt g

/-- Value of a decimal digit string, `none` when empty or non-numeric. -/
def digitsVal (l : List Char) : Option Nat :=
  if l.isEmpty then none
  else l.foldl (fun acc c => acc.bind (fun n => if c.isDigit then some (n * 10 + (c.toNat - 48)) else none)) (some 0)

/-- Integer literal reader (optional leading minus). -/
def parseIntOpt (s : String) : Option Int :=
  match s.data with
  | '-' :: rest => (digitsVal rest).map (fun n => -(n : Int))
  | l => (digitsVal l).map (fun n => (n : Int))

/-- Drop an expected leading char sequence; `none` when it does not match. -/
def dropPrefixCL : List Char → List Char → Option (List Char)
| [], l => some l
| _ :: _, [] => none
| a :: as, b :: bs => if a == b then dropPrefixCL as bs else none

/-- Split a char sequence on a separator character. -/
def splitSep (sep : Char) (acc : List Char) : List Char → List (List Char)
| [] => [acc.reverse]
| c :: rest => if c == sep then acc.reverse :: splitSep sep [] rest else splitSep sep (c :: acc) rest

/-- The slash-separated components of an archive entry path. -/
def pathParts (s : String) : List String :=
  (splitSep '/' [] s.data).map String.mk

/-- `shapely.wkt.loads`, modelled on the POINT fragment with integer
coordinates; `none` models the parse exception. -/
def wktLoads (s : String) : Option Geom :=
  match dropPrefixCL ("POINT (").data s.data with
  | some rest =>
    match rest.reverse with
    | ')' :: innerRev =>
      match splitSep ' ' [] innerRev.reverse with
      | [xs, ys] =>
        match parseIntOpt (String.mk xs), parseIntOpt (String.mk ys) with
        | some x, some y => some (Geom.point (some x) (some y))
        | _, _ => none
      | _ => none
    | _ => none
  | none => none

/-- ASCII lower-casing, modelling `str.lower()` on column names. -/
def lowerChar (c : Char) : Char :=
  if 'A' ≤ c && c ≤ 'Z' then Char.ofNat (c.toNat + 32) else c

/-- `col.lower()`. -/
def lowerStr (s : String) : String := String.mk (s.data.map lowerChar)

/-- `str(x).strip() == ""`. -/
def blankB (s : String) : Bool := s.data.all (fun c => c.isWhitespace)

/-- The cell is fed to `wkt.loads` (non-null and non-blank). -/
def attemptedB (c : Cell) : Bool := notnullB c && !(blankB (cellStr c))

/-- The reserved-character class of safe_name's regex. -/
def reservedChar (c : Char) : Bool :=
  c == '<' || c == '>' || c == ':' || c == '"' || c == '/' || c == '\\' ||
  c == '|' || c == '?' || c == '*' || c == '\x7b' || c == '\x7d'

/-- `re.sub` with the class and a `+` quantifier: each maximal run of
reserved characters becomes one underscore.  The flag records whether the
previous character was part of a reserved run. -/
def collapseAux : Bool → List Char → List Char
| _, [] => []
| inRun, c :: rest =>
  if reservedChar c then
    if inRun then collapseAux true rest
    else '_' :: collapseAux true rest
  else c :: collapseAux false rest

def collapseRes (l : List Char) : List Char := collapseAux false l

/-- Remove leading underscores. -/
def dropUnders (l : List Char) : List Char := l.dropWhile (fun c => c == '_')

/-- `.strip("_")`: remove leading and trailing underscores. -/
def stripUnders (l : List Char) : List Char :=
  (dropUnders ((dropUnders l).reverse)).reverse

/-- `safe_name` (src/Split_Data.py lines 37-40). -/
def safe_name (s : String) : String :=
  if (stripUnders (collapseRes s.data)).isEmpty then "UNKNOWN"
  else String.mk (stripUnders (collapseRes s.data))

/-- Per-character replacement rendering of the claim wording ("replaces
every character of the reserved set with an underscore"), for comparison
with the source's run-collapsing `safe_name`. -/
def safe_nameClaim (s : String) : String :=
  if (stripUnders (s.data.map (fun c => if reservedChar c then '_' else c))).isEmpty then "UNKNOWN"
  else String.mk (stripUnders (s.data.map (fun c => if reservedChar c then '_' else c)))

/-- Cell of a row under a column name (first matching column, null when the
column is absent — pandas reindexing semantics). -/
def cellAt : List String → List Cell → String → Cell
| c :: cs, v :: vs, t => if c == t then v else cellAt cs vs t
| _, _, _ => Cell.vNull

/-- Replace the cell(s) of the named column (`frame[col] = values`). -/
def setCell : List String → List Cell → String → Cell → List Cell
| c :: cs, v :: vs, t, w => (if c == t then w else v) :: setCell cs vs t w
| _, vs, _, _ => vs

/-- The named column of a frame, as `df[col]`. -/
def columnCells (f : Frame) (c : String) : List Cell :=
  f.rows.map (fun r => cellAt f.cols r c)

/-- Option-valued traversal; `none` models an exception raised mid-column. -/
def optMap (g : α → Option β) : List α → Option (List β)
| [] => some []
| a :: as =>
  match g a, optMap g as with
  | some b, some bs => some (b :: bs)
  | _, _ => none

/-- The per-cell lambda of convert_to_geodf: null/blank cells give a null
geometry, other cells are parsed and a parse failure raises. -/
def parseCellWkt (c : Cell) : Option (Option Geom) :=
  if attemptedB c then (wktLoads (cellStr c)).map some else some none

/-- `df[col].apply(lambda x: wkt.loads(str(x)) if ... else None)`:
the whole column computation raises when any single cell fails to parse. -/
def applyWkt (cs : List Cell) : Option (List (Option Geom)) :=
  optMap parseCellWkt cs

/-- The recognized geometry column names (lower-cased). -/
def wktNames : List String :=
  ["gps_point", "gps_polygon", "plot_gps_point", "plot_gps_polygon", "plot_wkt", "wkt", "geometry"]

/-- Candidate WKT columns, in column order. -/
def wktCandidates (f : Frame) : List String :=
  f.cols.filter (fun c => wktNames.contains (lowerStr c))

def geomCell : Option Geom → Cell
| some g => Cell.vGeom g
| none => Cell.vNull

/-- `gpd.GeoDataFrame(df.copy(), geometry=geom, crs="EPSG:4326")`: the
geometry is stored under the default geometry column name "geometry",
replacing such a column when present, else appended. -/
def setGeomCol (f : Frame) (gs : List (Option Geom)) : Frame :=
  if f.cols.contains "geometry" then
    { cols := f.cols,
      rows := (f.rows.zip gs).map (fun p => setCell f.cols p.1 "geometry" (geomCell p.2)),
      geomCol := some "geometry" }
  else
    { cols := f.cols ++ ["geometry"],
      rows := (f.rows.zip gs).map (fun p => p.1 ++ [geomCell p.2]),
      geomCol := some "geometry" }

/-- The candidate loop of convert_to_geodf (lines 52-60): a column whose
apply raises, or parses no cell at all, is passed over; the first column
with at least one parsed geometry wins. -/
def tryWktCols : List String → Frame → Option Frame
| [], _ => none
| c :: rest, f =>
  match applyWkt (columnCells f c) with
  | some gs => if gs.any Option.isSome then some (setGeomCol f gs) else tryWktCols rest f
  | none => tryWktCols rest f

def isPrefixCL : List Char → List Char → Bool
| [], _ => true
| _ :: _, [] => false
| a :: as, b :: bs => a == b && isPrefixCL as bs

def containsCL (pat : List Char) : List Char → Bool
| [] => pat.isEmpty
| c :: rest => isPrefixCL pat (c :: rest) || containsCL pat rest

/-- `"lon" in c.lower()` — substring containment. -/
def containsSub (s pat : String) : Bool := containsCL pat.data s.data

def lonCols (f : Frame) : List String :=
  f.cols.filter (fun c => containsSub (lowerStr c) "lon")

def latCols (f : Frame) : List String :=
  f.cols.filter (fun c => containsSub (lowerStr c) "lat")

/-- numpy float coercion of one coordinate cell: a number passes, null
becomes NaN (`some none`), a non-numeric string raises (`none`). -/
def coerceCoord : Cell → Option (Option Int)
| .vNum n => some (some n)
| .vNull => some none
| .vStr s =>
  match parseIntOpt s with
  | some n => some (some n)
  | none => none
| .vGeom _ => none

/-- `gpd.points_from_xy(df[lon_cols[0]], df[lat_cols[0]])` wrapped in the
source's try/except: any non-coercible cell aborts the whole construction;
otherwise every row gets a (possibly NaN-coordinate) point. -/
def tryLonLat (f : Frame) : Option Frame :=
  match lonCols f, latCols f with
  | lc :: _, tc :: _ =>
    match optMap coerceCoord (columnCells f lc), optMap coerceCoord (columnCells f tc) with
    | some xs, some ys =>
      some (setGeomCol f ((xs.zip ys).map (fun p => some (Geom.point p.1 p.2))))
    | _, _ => none
  | _, _ => none

/-- convert_to_geodf (lines 42-72). -/
def convert_to_geodf (f : Frame) : Frame :=
  match tryWktCols (wktCandidates f) f with
  | some g => g
  | none =>
    match tryLonLat f with
    | some g => g
    | none => f

/-- Column union in first-seen order (pd.concat with join="outer",
sort=False). -/
def unionCols (dfs : List Frame) : List String :=
  dfs.foldl (fun acc d => acc ++ d.cols.filter (fun c => !(acc.contains c))) []

/-- Reindex one source row to the union columns, null-filling. -/
def alignRow (cols srcCols : List String) (r : List Cell) : List Cell :=
  cols.map (fun c => cellAt srcCols r c)

/-- Lines 129-133: `is_spatial = all(isinstance(d, gpd.GeoDataFrame) ...)`;
the concatenation is re-wrapped as a GeoDataFrame only in that case. -/
def combine (dfs : List Frame) : Frame :=
  { cols := unionCols dfs,
    rows := dfs.flatMap (fun d => d.rows.map (alignRow (unionCols dfs) d.cols)),
    geomCol := if dfs.all isGDF then some "geometry" else none }

/-- Python-style lexicographic char-list comparison (by code point). -/
def charListLe : List Char → List Char → Bool
| [], _ => true
| _ :: _, [] => false
| a :: as, b :: bs =>
  if a.toNat < b.toNat then true
  else if b.toNat < a.toNat then false
  else charListLe as bs

def strLeB (a b : String) : Bool := charListLe a.data b.data

/-- Total preorder on cells, modelling the sort pandas groupby applies to
the distinct key values (nulls never reach it; a single key column has
one scalar type in pandas, so the cross-constructor ranking is arbitrary). -/
def cellLeB (a b : Cell) : Bool :=
  match a, b with
  | .vNull, _ => true
  | _, .vNull => false
  | .vNum m, .vNum n => decide (m ≤ n)
  | .vNum _, _ => true
  | _, .vNum _ => false
  | .vStr s, .vStr t => strLeB s t
  | .vStr _, _ => true
  | _, .vStr _ => false
  | .vGeom _, .vGeom _ => true

def cellLe (a b : Cell) : Prop := cellLeB a b = true

instance : DecidableRel cellLe := fun a b => instDecidableEqBool (cellLeB a b) true

/-- The key cells of a frame under a grouping column. -/
def keyCells (f : Frame) (k : String) : List Cell :=
  f.rows.map (fun r => cellAt f.cols r k)

/-- The distinct non-null keys, ascending — groupby's iteration order
(sort=True, dropna=True). -/
def sortedKeys (f : Frame) (k : String) : List Cell :=
  List.insertionSort cellLe ((keyCells f k).filter notnullB).dedup

/-- `df.groupby(k)`: pairs of key value and sub-frame, in sorted key
order; each group keeps the frame's columns and its rows in original
order; rows with a null key belong to no group. -/
def groupbyF (f : Frame) (k : String) : List (Cell × Frame) :=
  (sortedKeys f k).map (fun v => (v, { f with rows := f.rows.filter (fun r => cellAt f.cols r k == v) }))

/-- First-seen order of the distinct non-null keys — the iteration order
the claim asserts, for comparison with the source's sorted order. -/
def firstSeenKeys (f : Frame) (k : String) : List Cell :=
  (keyCells f k).foldl (fun acc v => if notnullB v && !(acc.contains v) then acc ++ [v] else acc) []

/-- The leaf groups the export loop iterates (lines 160 and 188). -/
def leafGroups (f : Frame) (k1 : String) (k2 : Option String) : List Frame :=
  match k2 with
  | none => (groupbyF f k1).map Prod.snd
  | some kk => (groupbyF f k1).flatMap (fun p => (groupbyF p.2 kk).map Prod.snd)

def leafRows (f : Frame) (k1 : String) (k2 : Option String) : List (List Cell) :=
  (leafGroups f k1 k2).flatMap Frame.rows

/-- Membership of a row in the leaf partition the claims describe. -/
def leafPredicate (cols : List String) (k1 : String) (k2 : Option String) (r : List Cell) : Bool :=
  notnullB (cellAt cols r k1) &&
    (match k2 with
     | none => true
     | some kk => notnullB (cellAt cols r kk))

inductive Format where
| csv
| excel
| geojson
| kml
deriving DecidableEq

def isTab : Format → Bool
| .csv => true
| .excel => true
| .geojson => false
| .kml => false

/-- One zip entry: its relative path and the columns/rows it serializes. -/
structure Artifact where
  path : String
  format : Format
  cols : List String
  rows : List (List Cell)
deriving DecidableEq

/-- `.drop(columns="geometry", errors="ignore")`. -/
def dropGeom (f : Frame) : Frame :=
  { cols := f.cols.filter (fun c => !(c == "geometry")),
    rows := f.rows.map (fun r => ((f.cols.zip r).filter (fun p => !(p.1 == "geometry"))).map Prod.snd),
    geomCol := none }

/-- `df[df.geometry.notnull()]` with "geometry" the active geometry column. -/
def filterGeom (f : Frame) : Frame :=
  { f with rows := f.rows.filter (fun r => notnullB (cellAt f.cols r "geometry")) }

def spatialRequested (fmts : List Format) : Bool :=
  fmts.contains Format.geojson || fmts.contains Format.kml

/-- Line 153-154: the single advisory emitted when a spatial format is
requested on a non-spatial Dataset. -/
def advisoryCount (f : Frame) (fmts : List Format) : Nat :=
  if spatialRequested fmts && !(isGDF f) then 1 else 0

/-- The artifacts written for one leaf group (lines 163-186 / 191-213):
tabular formats serialize the group with the "geometry" column dropped;
spatial formats run only on a spatial Dataset, on the rows with non-null
geometry, and are skipped silently when that filter leaves nothing. -/
def groupArtifacts (isSp : Bool) (fmts : List Format) (base : String) (g : Frame) : List Artifact :=
  (if fmts.contains Format.csv then
    [{ path := base ++ ".csv", format := Format.csv, cols := (dropGeom g).cols, rows := (dropGeom g).rows }]
   else []) ++
  (if fmts.contains Format.excel then
    [{ path := base ++ ".xlsx", format := Format.excel, cols := (dropGeom g).cols, rows := (dropGeom g).rows }]
   else []) ++
  (if isSp then
    (if (filterGeom g).rows.isEmpty then []
     else
       (if fmts.contains Format.geojson then
         [{ path := base ++ ".geojson", format := Format.geojson, cols := g.cols, rows := (filterGeom g).rows }]
        else []) ++
       (if fmts.contains Format.kml then
         [{ path := base ++ ".kml", format := Format.kml, cols := g.cols, rows := (filterGeom g).rows }]
        else []))
   else [])

/-- The export loop (lines 159-213): one- or two-level grouping, with
sanitized key values as folder / file names. -/
def runExport (f : Frame) (k1 : String) (k2 : Option String) (fmts : List Format) : List Artifact :=
  (groupbyF f k1).flatMap (fun p =>
    match k2 with
    | none => groupArtifacts (isGDF f) fmts (safe_name (pyStr p.1)) p.2
    | some kk =>
      (groupbyF p.2 kk).flatMap (fun q =>
        groupArtifacts (isGDF f) fmts (safe_name (pyStr p.1) ++ "/" ++ safe_name (pyStr q.1)) q.2))

/-- Whether any coordinate cell of the first lon/lat columns fails numeric
coercion (the condition that makes points_from_xy raise). -/
def badCoordB (f : Frame) : Bool :=
  (match lonCols f with
   | c :: _ => (columnCells f c).any (fun x => (coerceCoord x).isNone)
   | [] => false) ||
  (match latCols f with
   | c :: _ => (columnCells f c).any (fun x => (coerceCoord x).isNone)
   | [] => false)

/- Concrete inputs used by counterexamples and witnesses. -/

def exPt : Geom := Geom.point (some 1) (some 2)

def exSp : Frame := ⟨["geometry"], [[Cell.vGeom exPt]], some "geometry"⟩

def exPl : Frame := ⟨["a"], [[Cell.vNum 1]], none⟩

def exF2 : Frame := ⟨["wkt"], [[Cell.vStr "POINT (1 2)"], [Cell.vStr "oops"]], none⟩

def exF3 : Frame := ⟨["lon", "lat"], [[Cell.vNum 1, Cell.vNum 2], [Cell.vStr "x", Cell.vNum 3]], none⟩

def exF4 : Frame := ⟨["k"], [[Cell.vStr "a"], [Cell.vNull]], none⟩

def exF5 : Frame := ⟨["k"], [[Cell.vStr "b"], [Cell.vStr "a"]], none⟩

def exF9 : Frame := ⟨["geometry"], [[Cell.vStr "POINT (1 2)"]], none⟩

def exF10 : Frame := ⟨["a", "b"], [[Cell.vStr "..", Cell.vStr "x"]], none⟩

def wF7 : Frame := ⟨["k", "geometry"], [[Cell.vStr "x", Cell.vGeom exPt]], some "geometry"⟩

def wArt7 : Artifact := ⟨"x.csv", Format.csv, ["k"], [[Cell.vStr "x"]]⟩

def wF8 : Frame := ⟨["k", "geometry"], [[Cell.vStr "x", Cell.vGeom exPt], [Cell.vStr "y", Cell.vNull]], some "geometry"⟩

def wF3 : Frame := ⟨["lon", "lat"], [[Cell.vNum 1, Cell.vNum 2]], none⟩

def wF1 : Frame := ⟨["a"], [[Cell.vNum 1]], none⟩

end SplitData

namespace SplitData

theorem reservedChar_underscore : reservedChar '_' = false := by decide

theorem collapseAux_of_not_reserved (b : Bool) (l : List Char)
    (h : ∀ c ∈ l, reservedChar c = false) : collapseAux b l = l := by
  induction l generalizing b with
  | nil => rfl
  | cons c rest ih =>
    have hc := h c (List.mem_cons_self c rest)
    simp [collapseAux, hc, ih false (fun d hd => h d (List.mem_cons_of_mem _ hd))]

theorem not_reserved_of_mem_collapseAux (b : Bool) (l : List Char) (c : Char)
    (h : c ∈ collapseAux b l) : reservedChar c = false := by
  induction l generalizing b with
  | nil => simp [collapseAux] at h
  | cons d rest ih =>
    by_cases hd : reservedChar d = true
    · cases b with
      | true =>
        rw [show collapseAux true (d :: rest) = collapseAux true rest by simp [collapseAux, hd]] at h
        exact ih true h
      | false =>
        rw [show collapseAux false (d :: rest) = '_' :: collapseAux true rest by
              simp [collapseAux, hd]] at h
        rcases List.mem_cons.mp h with h1 | h1
        · subst h1; exact reservedChar_underscore
        · exact ih true h1
    · have hd' : reservedChar d = false := by simpa using hd
      rw [show collapseAux b (d :: rest) = d :: collapseAux false rest by
            simp [collapseAux, hd']] at h
      rcases List.mem_cons.mp h with h1 | h1
      · subst h1; exact hd'
      · exact ih false h1

theorem head_dropUnders (l : List Char) :
    ∀ c, (dropUnders l).head? = some c → (c == '_') = false := by
  induction l with
  | nil => intro c h; simp [dropUnders] at h
  | cons d rest ih =>
    intro c h
    by_cases hd : (d == '_') = true
    · rw [dropUnders, List.dropWhile_cons, if_pos hd] at h
      exact ih c h
    · have hd' : (d == '_') = false := by simpa using hd
      rw [dropUnders, List.dropWhile_cons, if_neg (by simp [hd'])] at h
      have : d = c := by simpa using h
      subst this
      exact hd'

theorem dropUnders_of_head (l : List Char)
    (h : ∀ c, l.head? = some c → (c == '_') = false) : dropUnders l = l := by
  cases l with
  | nil => rfl
  | cons d rest =>
    have hd := h d rfl
    simp [dropUnders, List.dropWhile_cons, hd]

theorem mem_of_mem_dropUnders {c : Char} {l : List Char} (h : c ∈ dropUnders l) : c ∈ l :=
  (List.dropWhile_sublist _).subset h

theorem mem_of_mem_stripUnders {c : Char} {l : List Char} (h : c ∈ stripUnders l) : c ∈ l := by
  unfold stripUnders at h
  rw [List.mem_reverse] at h
  have h2 := mem_of_mem_dropUnders h
  rw [List.mem_reverse] at h2
  exact mem_of_mem_dropUnders h2

theorem getLast_dropUnders (l : List Char)
    (h : ∀ c, l.getLast? = some c → (c == '_') = false) :
    ∀ c, (dropUnders l).getLast? = some c → (c == '_') = false := by
  intro c hc
  apply h c
  rw [← List.head?_reverse] at hc ⊢
  have hsplit : l = l.takeWhile (fun x => x == '_') ++ dropUnders l :=
    (List.takeWhile_append_dropWhile _ _).symm
  rw [hsplit, List.reverse_append]
  cases hrev : (dropUnders l).reverse with
  | nil => rw [hrev] at hc; simp at hc
  | cons x xs =>
    rw [hrev] at hc
    simp at hc
    simp [hc]

theorem head_stripUnders (l : List Char) :
    ∀ c, (stripUnders l).head? = some c → (c == '_') = false := by
  intro c hc
  unfold stripUnders at hc
  rw [List.head?_reverse] at hc
  have haux : ∀ d, ((dropUnders l).reverse).getLast? = some d → (d == '_') = false := by
    intro d hd
    rw [List.getLast?_reverse] at hd
    exact head_dropUnders l d hd
  exact getLast_dropUnders _ haux c hc

theorem getLast_stripUnders (l : List Char) :
    ∀ c, (stripUnders l).getLast? = some c → (c == '_') = false := by
  intro c hc
  rw [← List.head?_reverse] at hc
  unfold stripUnders at hc
  rw [List.reverse_reverse] at hc
  exact head_dropUnders _ c hc

theorem stripUnders_fix (l : List Char)
    (h1 : ∀ c, l.head? = some c → (c == '_') = false)
    (h2 : ∀ c, l.getLast? = some c → (c == '_') = false) :
    stripUnders l = l := by
  unfold stripUnders
  rw [dropUnders_of_head l h1]
  rw [dropUnders_of_head l.reverse (fun c hc => h2 c (by rwa [List.head?_reverse] at hc))]
  exact List.reverse_reverse l

theorem stripUnders_idem (l : List Char) : stripUnders (stripUnders l) = stripUnders l :=
  stripUnders_fix _ (head_stripUnders l) (getLast_stripUnders l)

theorem safe_name_no_reserved (x : String) :
    ∀ c ∈ (safe_name x).data, reservedChar c = false := by
  intro c hc
  simp only [safe_name] at hc
  by_cases h : (stripUnders (collapseRes x.data)).isEmpty = true
  · rw [if_pos h] at hc
    have hall : ∀ d ∈ "UNKNOWN".data, reservedChar d = false := by decide
    exact hall c hc
  · rw [if_neg h] at hc
    exact not_reserved_of_mem_collapseAux false _ c (mem_of_mem_stripUnders hc)

end SplitData

namespace SplitData

/-- Claim C6 counterexample: the source regex carries a `+` quantifier, so
a run of reserved characters collapses to a single underscore, where the
claimed per-character replacement would produce one underscore each. -/
theorem safe_name_per_char_cex :
    safe_name "a<>b" = "a_b" ∧ safe_nameClaim "a<>b" = "a__b" ∧
    safe_name "a<>b" ≠ safe_nameClaim "a<>b" := by decide

/-- Claim C6 (amended): safe_name renders the value to a string, replaces
every maximal run of reserved characters with a single underscore, strips
leading and trailing underscores and substitutes "UNKNOWN" for an empty
result; it is idempotent, its result never contains a reserved character,
and safe_name "" = "UNKNOWN". -/
theorem safe_name_amended (x : String) :
    safe_name (safe_name x) = safe_name x ∧
    (∀ c ∈ (safe_name x).data, reservedChar c = false) ∧
    safe_name "" = "UNKNOWN" := by
  refine ⟨?_, safe_name_no_reserved x, by decide⟩
  by_cases h : (stripUnders (collapseRes x.data)).isEmpty = true
  · have hx : safe_name x = "UNKNOWN" := by
      simp only [safe_name]; rw [if_pos h]
    rw [hx]; decide
  · have hx : safe_name x = String.mk (stripUnders (collapseRes x.data)) := by
      simp only [safe_name]; rw [if_neg h]
    have hnr : ∀ c ∈ stripUnders (collapseRes x.data), reservedChar c = false := fun c hc =>
      not_reserved_of_mem_collapseAux false _ c (mem_of_mem_stripUnders hc)
    have h1 : collapseRes (stripUnders (collapseRes x.data)) = stripUnders (collapseRes x.data) :=
      collapseAux_of_not_reserved false _ hnr
    have h2 : stripUnders (stripUnders (collapseRes x.data)) = stripUnders (collapseRes x.data) :=
      stripUnders_idem _
    rw [hx]
    show safe_name (String.mk (stripUnders (collapseRes x.data)))
        = String.mk (stripUnders (collapseRes x.data))
    simp only [safe_name]
    rw [h1, h2, if_neg h]

/-- Claim C6 amended, applied at a concrete input. -/
theorem safe_name_amended_witness :
    safe_name (safe_name "a<b") = safe_name "a<b" ∧
    (∀ c ∈ (safe_name "a<b").data, reservedChar c = false) ∧
    safe_name "" = "UNKNOWN" :=
  safe_name_amended "a<b"

/-- Claim C10: safe_name leaves "." untouched, so a key value of ".." is
used verbatim and the two-level archive entry path gains a
parent-directory component. -/
theorem sanitize_dotdot_traversal :
    safe_name ".." = ".." ∧
    (runExport exF10 "a" (some "b") [Format.csv]).map Artifact.path = ["../x.csv"] ∧
    pathParts "../x.csv" = ["..", "x.csv"] := by decide

/-- Claim C1 counterexample: one spatial and one plain Record Set — some
contributor is spatial, yet the combined Dataset is classified
non-spatial, because the source tests `all(...)`, not `any(...)`. -/
theorem combine_any_spatial_cex :
    [exSp, exPl].any isGDF = true ∧ isGDF (combine [exSp, exPl]) = false := by decide

/-- Claim C2 counterexample: a candidate column with one parseable and one
unparseable cell.  The claim says the column is accepted with a null at
the bad row; the source's `apply` raises on the bad cell, the exception
rejects the whole column, and the frame stays non-spatial. -/
theorem wkt_column_reject_cex :
    (wktLoads "POINT (1 2)").isSome = true ∧
    wktLoads "oops" = none ∧
    wktCandidates exF2 = ["wkt"] ∧
    convert_to_geodf exF2 = exF2 ∧
    isGDF (convert_to_geodf exF2) = false := by decide

/-- Claim C3 counterexample: lon/lat columns with one non-numeric cell.
The claim says that row alone gets a null geometry; the source's
points_from_xy raises, the bare except abandons the whole fallback, and
the frame is returned unchanged and non-spatial. -/
theorem lonlat_abort_cex :
    lonCols exF3 = ["lon"] ∧ latCols exF3 = ["lat"] ∧
    (coerceCoord (Cell.vStr "x")).isNone = true ∧
    (coerceCoord (Cell.vNum 1)).isSome = true ∧
    convert_to_geodf exF3 = exF3 ∧
    isGDF (convert_to_geodf exF3) = false := by decide

/-- Claim C4 counterexample: a two-row frame whose second row has a null
key.  groupby's dropna=True default drops that row, so the groups carry
one row, not two, and are not a permutation of the Dataset's rows. -/
theorem partition_dropna_cex :
    exF4.rows.length = 2 ∧ (leafRows exF4 "k" none).length = 1 ∧
    ¬ (leafRows exF4 "k" none).Perm exF4.rows := by decide

/-- Claim C5 counterexample: keys first seen in the order "b", "a" are
iterated "a", "b" — groupby's sort=True default, not first-seen order. -/
theorem groupby_order_cex :
    (groupbyF exF5 "k").map Prod.fst = [Cell.vStr "a", Cell.vStr "b"] ∧
    firstSeenKeys exF5 "k" = [Cell.vStr "b", Cell.vStr "a"] ∧
    (groupbyF exF5 "k").map Prod.fst ≠ firstSeenKeys exF5 "k" := by decide

/-- Claim C9 counterexample: a WKT column literally named "geometry" is
replaced by the parsed geometry objects, so the original string values are
modified, not preserved. -/
theorem convert_overwrites_geometry_cex :
    exF9.cols = ["geometry"] ∧
    exF9.rows = [[Cell.vStr "POINT (1 2)"]] ∧
    (convert_to_geodf exF9).cols = ["geometry"] ∧
    (convert_to_geodf exF9).rows = [[Cell.vGeom (Geom.point (some 1) (some 2))]] ∧
    (convert_to_geodf exF9).rows ≠ exF9.rows := by decide

end SplitData

namespace SplitData

theorem charListLe_total : ∀ as bs : List Char, charListLe as bs = true ∨ charListLe bs as = true := by
  intro as
  induction as with
  | nil => intro bs; left; rfl
  | cons a as ih =>
    intro bs
    cases bs with
    | nil => right; rfl
    | cons b bs =>
      simp only [charListLe]
      rcases Nat.lt_trichotomy a.toNat b.toNat with h | h | h
      · left; rw [if_pos h]
      · rcases ih bs with h2 | h2
        · left; rw [if_neg (by omega), if_neg (by omega)]; exact h2
        · right; rw [if_neg (by omega), if_neg (by omega)]; exact h2
      · right; rw [if_pos h]

theorem charListLe_trans : ∀ as bs cs : List Char,
    charListLe as bs = true → charListLe bs cs = true → charListLe as cs = true := by
  intro as
  induction as with
  | nil => intro bs cs h1 h2; rfl
  | cons a as ih =>
    intro bs cs h1 h2
    cases bs with
    | nil => simp [charListLe] at h1
    | cons b bs =>
      cases cs with
      | nil => simp [charListLe] at h2
      | cons c cs =>
        simp only [charListLe] at h1 h2 ⊢
        rcases Nat.lt_trichotomy a.toNat b.toNat with hab | hab | hab
        · rcases Nat.lt_trichotomy b.toNat c.toNat with hbc | hbc | hbc
          · rw [if_pos (Nat.lt_trans hab hbc)]
          · rw [if_pos (hbc ▸ hab)]
          · rw [if_neg (by omega), if_pos hbc] at h2
            exact absurd h2 (by simp)
        · rw [if_neg (by omega), if_neg (by omega)] at h1
          rcases Nat.lt_trichotomy b.toNat c.toNat with hbc | hbc | hbc
          · rw [if_pos (by omega)]
          · rw [if_neg (by omega), if_neg (by omega)] at h2
            rw [if_neg (by omega), if_neg (by omega)]
            exact ih bs cs h1 h2
          · rw [if_neg (by omega), if_pos hbc] at h2
            exact absurd h2 (by simp)
        · rw [if_neg (by omega), if_pos hab] at h1
          exact absurd h1 (by simp)

theorem cellLeB_total : ∀ a b : Cell, cellLe a b ∨ cellLe b a := by
  intro a b
  unfold cellLe
  cases a <;> cases b <;> simp [cellLeB, strLeB] <;>
    first
      | exact Int.le_total _ _
      | exact charListLe_total _ _

theorem cellLeB_trans : ∀ a b c : Cell, cellLe a b → cellLe b c → cellLe a c := by
  intro a b c h1 h2
  unfold cellLe at h1 h2 ⊢
  cases a <;> cases b <;> cases c <;> simp_all [cellLeB, strLeB] <;>
    first
      | omega
      | exact charListLe_trans _ _ _ h1 h2

instance : IsTotal Cell cellLe := ⟨cellLeB_total⟩

instance : IsTrans Cell cellLe := ⟨cellLeB_trans⟩

theorem isSome_optMap (g : α → Option β) (l : List α) :
    (optMap g l).isSome = l.all (fun a => (g a).isSome) := by
  induction l with
  | nil => rfl
  | cons a as ih =>
    cases hga : g a with
    | none => simp [optMap, hga]
    | some b =>
      cases has : optMap g as with
      | none => simp [optMap, hga, has, ← ih]
      | some bs => simp [optMap, hga, has, ← ih]

theorem optMap_none_iff (g : α → Option β) (l : List α) :
    optMap g l = none ↔ l.any (fun a => (g a).isNone) = true := by
  have key := isSome_optMap g l
  constructor
  · intro h
    rw [h] at key
    have hall : ¬(l.all (fun a => (g a).isSome) = true) := by rw [← key]; simp
    rw [List.all_eq_true] at hall
    push_neg at hall
    rcases hall with ⟨a, ha, hna⟩
    rw [List.any_eq_true]
    refine ⟨a, ha, ?_⟩
    cases hg : g a with
    | none => rfl
    | some b => rw [hg] at hna; simp at hna
  · intro h
    rw [List.any_eq_true] at h
    rcases h with ⟨a, ha, hga⟩
    cases hopt : optMap g l with
    | none => rfl
    | some bs =>
      rw [hopt] at key
      have hall : l.all (fun a => (g a).isSome) = true := by rw [← key]; rfl
      rw [List.all_eq_true] at hall
      have := hall a ha
      cases hg : g a with
      | none => rw [hg] at this; simp at this
      | some b => rw [hg] at hga; simp at hga

theorem optMap_length (g : α → Option β) (l : List α) (bs : List β)
    (h : optMap g l = some bs) : bs.length = l.length := by
  induction l generalizing bs with
  | nil =>
    simp only [optMap] at h
    obtain rfl := (Option.some.inj h).symm
    rfl
  | cons a as ih =>
    cases hga : g a with
    | none => simp [optMap, hga] at h
    | some b =>
      cases has : optMap g as with
      | none => simp [optMap, hga, has] at h
      | some cs =>
        simp only [optMap, hga, has] at h
        obtain rfl := (Option.some.inj h).symm
        simp [ih cs has]

theorem parseCellWkt_isNone (c : Cell) :
    (parseCellWkt c).isNone = (attemptedB c && (wktLoads (cellStr c)).isNone) := by
  by_cases h : attemptedB c = true
  · simp only [parseCellWkt, h, if_pos, if_true, Bool.true_and]
    cases hw : wktLoads (cellStr c) <;> simp
  · have h' : attemptedB c = false := by simpa using h
    simp [parseCellWkt, h']

theorem applyWkt_some_anySome (cs : List Cell) (gs : List (Option Geom))
    (h : applyWkt cs = some gs) : gs.any Option.isSome = cs.any attemptedB := by
  induction cs generalizing gs with
  | nil =>
    simp only [applyWkt, optMap] at h
    obtain rfl := (Option.some.inj h).symm
    rfl
  | cons a as ih =>
    cases hga : parseCellWkt a with
    | none => simp [applyWkt, optMap, hga] at h
    | some b =>
      cases has : optMap parseCellWkt as with
      | none => simp [applyWkt, optMap, hga, has] at h
      | some bs =>
        simp only [applyWkt, optMap, hga, has] at h
        obtain rfl := (Option.some.inj h).symm
        have htail : bs.any Option.isSome = as.any attemptedB := ih bs (by simpa [applyWkt] using has)
        by_cases hat : attemptedB a = true
        · have hga2 : (wktLoads (cellStr a)).map some = some b := by
            simpa [parseCellWkt, hat] using hga
          cases hw : wktLoads (cellStr a) with
          | none => rw [hw] at hga2; simp at hga2
          | some g0 =>
            rw [hw] at hga2
            have hb : some g0 = b := by simpa using hga2
            subst hb
            simp [hat]
        · have hat' : attemptedB a = false := by simpa using hat
          have hga2 : (some none : Option (Option Geom)) = some b := by
            simpa [parseCellWkt, hat'] using hga
          have hb : (none : Option Geom) = b := by simpa using hga2
          subst hb
          simp [hat', htail]

end SplitData

namespace SplitData

/-- Claim C2 (amended): a candidate WKT column is accepted iff every
non-null, non-blank cell parses and at least one such cell exists (null
and blank cells yield null geometry); a cell whose parse raises rejects
the whole column — the apply aborts — rather than yielding a per-row
null. -/
theorem wkt_column_acceptance (cs : List Cell) :
    (applyWkt cs = none ↔
      cs.any (fun c => attemptedB c && (wktLoads (cellStr c)).isNone) = true) ∧
    ∀ gs, applyWkt cs = some gs →
      gs.length = cs.length ∧ gs.any Option.isSome = cs.any attemptedB := by
  constructor
  · unfold applyWkt
    rw [optMap_none_iff]
    simp only [parseCellWkt_isNone]
  · intro gs hgs
    exact ⟨optMap_length _ _ _ (by simpa [applyWkt] using hgs),
      applyWkt_some_anySome cs gs hgs⟩

/-- Claim C2 amended, applied at a concrete column whose second cell is
null: the column maps to one parsed geometry and one null. -/
theorem wkt_column_acceptance_witness :
    ([some exPt, none] : List (Option Geom)).length
      = [Cell.vStr "POINT (1 2)", Cell.vNull].length ∧
    ([some exPt, none] : List (Option Geom)).any Option.isSome
      = [Cell.vStr "POINT (1 2)", Cell.vNull].any attemptedB :=
  (wkt_column_acceptance [Cell.vStr "POINT (1 2)", Cell.vNull]).2 [some exPt, none] (by decide)

theorem cellAt_setCell_hit (cols : List String) (row : List Cell) (t : String) (w : Cell)
    (hmem : t ∈ cols) (hlen : row.length = cols.length) :
    cellAt cols (setCell cols row t w) t = w := by
  induction cols generalizing row with
  | nil => simp at hmem
  | cons c cs ih =>
    cases row with
    | nil => simp at hlen
    | cons v vs =>
      by_cases hc : (c == t) = true
      · simp [setCell, cellAt, hc]
      · have hc' : (c == t) = false := by simpa using hc
        have ht : t ∈ cs := by
          rcases List.mem_cons.mp hmem with h | h
          · subst h; simp at hc'
          · exact h
        simp only [setCell, cellAt, hc', Bool.false_eq_true, if_neg, not_false_iff]
        exact ih vs ht (by simpa using hlen)

theorem cellAt_setCell_miss (cols : List String) (row : List Cell) (t s : String) (w : Cell)
    (hst : s ≠ t) : cellAt cols (setCell cols row t w) s = cellAt cols row s := by
  induction cols generalizing row with
  | nil => cases row <;> rfl
  | cons c cs ih =>
    cases row with
    | nil => rfl
    | cons v vs =>
      by_cases hcs : (c == s) = true
      · have hceq : c = s := eq_of_beq hcs
        have hct : (c == t) = false := by
          rw [beq_eq_false_iff_ne]
          rw [hceq]
          exact hst
        simp [setCell, cellAt, hcs, hct]
      · have hcs' : (c == s) = false := by simpa using hcs
        simp only [setCell, cellAt, hcs', Bool.false_eq_true, if_neg, not_false_iff]
        exact ih vs

theorem cellAt_append_old (cols : List String) (row : List Cell) (t s : String) (w : Cell)
    (hmem : s ∈ cols) (hlen : row.length = cols.length) :
    cellAt (cols ++ [t]) (row ++ [w]) s = cellAt cols row s := by
  induction cols generalizing row with
  | nil => simp at hmem
  | cons c cs ih =>
    cases row with
    | nil => simp at hlen
    | cons v vs =>
      by_cases hc : (c == s) = true
      · simp [cellAt, hc]
      · have hc' : (c == s) = false := by simpa using hc
        have hs : s ∈ cs := by
          rcases List.mem_cons.mp hmem with h | h
          · subst h; simp at hc'
          · exact h
        simp only [List.cons_append, cellAt, hc', Bool.false_eq_true, if_neg, not_false_iff]
        exact ih vs hs (by simpa using hlen)

theorem cellAt_append_new (cols : List String) (row : List Cell) (t : String) (w : Cell)
    (hmem : t ∉ cols) (hlen : row.length = cols.length) :
    cellAt (cols ++ [t]) (row ++ [w]) t = w := by
  induction cols generalizing row with
  | nil =>
    cases row with
    | nil => simp [cellAt]
    | cons v vs => simp at hlen
  | cons c cs ih =>
    cases row with
    | nil => simp at hlen
    | cons v vs =>
      have hc : (c == t) = false := by
        rw [beq_eq_false_iff_ne]
        intro he
        exact hmem (he ▸ List.mem_cons_self c cs)
      simp only [List.cons_append, cellAt, hc, Bool.false_eq_true, if_neg, not_false_iff]
      exact ih vs (fun hm => hmem (List.mem_cons_of_mem _ hm)) (by simpa using hlen)

theorem cellAt_not_mem (cols : List String) (row : List Cell) (t : String) (h : t ∉ cols) :
    cellAt cols row t = Cell.vNull := by
  induction cols generalizing row with
  | nil => cases row <;> rfl
  | cons c cs ih =>
    cases row with
    | nil => rfl
    | cons v vs =>
      have hc : (c == t) = false := by
        rw [beq_eq_false_iff_ne]
        intro he
        exact h (he ▸ List.mem_cons_self c cs)
      simp only [cellAt, hc, Bool.false_eq_true, if_neg, not_false_iff]
      exact ih vs (fun hm => h (List.mem_cons_of_mem _ hm))

theorem cellAt_map_self (cols : List String) (g : String → Cell) (t : String) :
    cellAt cols (cols.map g) t = if t ∈ cols then g t else Cell.vNull := by
  induction cols with
  | nil => simp [cellAt]
  | cons c cs ih =>
    simp only [List.map_cons, cellAt]
    by_cases hc : (c == t) = true
    · have hct : c = t := eq_of_beq hc
      subst hct
      rw [if_pos (by simp), if_pos (List.mem_cons_self c cs)]
    · have hc' : (c == t) = false := by simpa using hc
      have hne : t ≠ c := fun he => by
        rw [beq_eq_false_iff_ne] at hc'
        exact hc' he.symm
      rw [if_neg (by simp [hc']), ih]
      by_cases hm : t ∈ cs
      · rw [if_pos hm, if_pos (List.mem_cons_of_mem _ hm)]
      · rw [if_neg hm, if_neg (by simp [List.mem_cons, hne, hm])]

theorem zip_map_eval {α β γ : Type} (rows : List α) (gs : List β) (F : α → β → γ) (G : α → γ)
    (hlen : gs.length = rows.length) (hpt : ∀ p ∈ rows.zip gs, F p.1 p.2 = G p.1) :
    (rows.zip gs).map (fun p => F p.1 p.2) = rows.map G := by
  induction rows generalizing gs with
  | nil => simp
  | cons r rs ih =>
    cases gs with
    | nil => simp at hlen
    | cons g gs2 =>
      simp only [List.zip_cons_cons, List.map_cons]
      rw [hpt (r, g) (List.mem_cons_self _ _)]
      rw [ih gs2 (by simpa using hlen) (fun p hp => hpt p (List.mem_cons_of_mem _ hp))]

theorem wfB_row_length (f : Frame) (hwf : wfB f = true) (r : List Cell) (hr : r ∈ f.rows) :
    r.length = f.cols.length := by
  unfold wfB at hwf
  rw [List.all_eq_true] at hwf
  have := hwf r hr
  exact eq_of_beq this

end SplitData

namespace SplitData

theorem setGeomCol_isGDF (f : Frame) (gs : List (Option Geom)) :
    isGDF (setGeomCol f gs) = true := by
  unfold setGeomCol
  by_cases h : f.cols.contains "geometry" = true
  · rw [if_pos h]; rfl
  · rw [if_neg h]; rfl

theorem setGeomCol_cols (f : Frame) (gs : List (Option Geom)) :
    (setGeomCol f gs).cols = f.cols ∨ (setGeomCol f gs).cols = f.cols ++ ["geometry"] := by
  unfold setGeomCol
  by_cases h : f.cols.contains "geometry" = true
  · left; rw [if_pos h]
  · right; rw [if_neg h]

theorem setGeomCol_length (f : Frame) (gs : List (Option Geom))
    (hlen : gs.length = f.rows.length) :
    (setGeomCol f gs).rows.length = f.rows.length := by
  unfold setGeomCol
  by_cases h : f.cols.contains "geometry" = true
  · rw [if_pos h]; simp [List.length_zip, hlen]
  · rw [if_neg h]; simp [List.length_zip, hlen]

theorem setGeomCol_columnCells (f : Frame) (gs : List (Option Geom)) (c : String)
    (hwf : wfB f = true) (hlen : gs.length = f.rows.length)
    (hc : c ∈ f.cols) (hne : c ≠ "geometry") :
    columnCells (setGeomCol f gs) c = columnCells f c := by
  unfold setGeomCol
  by_cases h : f.cols.contains "geometry" = true
  · rw [if_pos h]
    unfold columnCells
    simp only [List.map_map]
    exact zip_map_eval f.rows gs
      (fun r g0 => cellAt f.cols (setCell f.cols r "geometry" (geomCell g0)) c)
      (fun r => cellAt f.cols r c) hlen
      (fun p hp => cellAt_setCell_miss f.cols p.1 "geometry" c (geomCell p.2) hne)
  · rw [if_neg h]
    unfold columnCells
    simp only [List.map_map]
    exact zip_map_eval f.rows gs
      (fun r g0 => cellAt (f.cols ++ ["geometry"]) (r ++ [geomCell g0]) c)
      (fun r => cellAt f.cols r c) hlen
      (fun p hp => cellAt_append_old f.cols p.1 "geometry" c (geomCell p.2) hc
        (wfB_row_length f hwf p.1 (List.of_mem_zip hp).1))

theorem setGeomCol_geometry_nonnull (f : Frame) (gs : List (Option Geom))
    (hwf : wfB f = true)
    (hall : ∀ g0 ∈ gs, Option.isSome g0 = true) :
    ∀ r ∈ (setGeomCol f gs).rows,
      notnullB (cellAt (setGeomCol f gs).cols r "geometry") = true := by
  intro r hr
  unfold setGeomCol at hr ⊢
  by_cases h : f.cols.contains "geometry" = true
  · rw [if_pos h] at hr ⊢
    rcases List.mem_map.mp hr with ⟨p, hp, rfl⟩
    have hfst := (List.of_mem_zip hp).1
    have hsnd := (List.of_mem_zip hp).2
    rw [cellAt_setCell_hit f.cols p.1 "geometry" (geomCell p.2)
      (List.mem_of_elem_eq_true h) (wfB_row_length f hwf p.1 hfst)]
    rcases Option.isSome_iff_exists.mp (hall p.2 hsnd) with ⟨g0, hg0⟩
    rw [hg0]
    rfl
  · rw [if_neg h] at hr ⊢
    rcases List.mem_map.mp hr with ⟨p, hp, rfl⟩
    have hfst := (List.of_mem_zip hp).1
    have hsnd := (List.of_mem_zip hp).2
    have hnm : "geometry" ∉ f.cols := fun hm => h (List.elem_eq_true_of_mem hm)
    rw [cellAt_append_new f.cols p.1 "geometry" (geomCell p.2) hnm
      (wfB_row_length f hwf p.1 hfst)]
    rcases Option.isSome_iff_exists.mp (hall p.2 hsnd) with ⟨g0, hg0⟩
    rw [hg0]
    rfl

theorem tryWktCols_some (cands : List String) (f : Frame) (g : Frame)
    (h : tryWktCols cands f = some g) :
    ∃ gs : List (Option Geom), g = setGeomCol f gs ∧ gs.length = f.rows.length := by
  induction cands with
  | nil => simp [tryWktCols] at h
  | cons c rest ih =>
    cases ha : applyWkt (columnCells f c) with
    | none =>
      rw [show tryWktCols (c :: rest) f = tryWktCols rest f by simp [tryWktCols, ha]] at h
      exact ih h
    | some gs =>
      by_cases hany : gs.any Option.isSome = true
      · rw [show tryWktCols (c :: rest) f = some (setGeomCol f gs) by
            simp [tryWktCols, ha, hany]] at h
        refine ⟨gs, (Option.some.inj h).symm, ?_⟩
        have h1 := optMap_length parseCellWkt (columnCells f c) gs (by simpa [applyWkt] using ha)
        simpa [columnCells] using h1
      · have hany' : gs.any Option.isSome = false := by simpa using hany
        rw [show tryWktCols (c :: rest) f = tryWktCols rest f by
            simp [tryWktCols, ha, hany']] at h
        exact ih h

theorem tryLonLat_some (f : Frame) (g : Frame) (h : tryLonLat f = some g) :
    ∃ gs : List (Option Geom), g = setGeomCol f gs ∧ gs.length = f.rows.length ∧
      ∀ g0 ∈ gs, Option.isSome g0 = true := by
  unfold tryLonLat at h
  cases hlc : lonCols f with
  | nil => rw [hlc] at h; simp at h
  | cons lc lcs =>
  cases htc : latCols f with
  | nil => rw [hlc, htc] at h; simp at h
  | cons tc tcs =>
  simp only [hlc, htc] at h
  cases hx : optMap coerceCoord (columnCells f lc) with
  | none => simp only [hx] at h; simp at h
  | some xs =>
  cases hy : optMap coerceCoord (columnCells f tc) with
  | none => simp only [hx, hy] at h; simp at h
  | some ys =>
  simp only [hx, hy, Option.some.injEq] at h
  refine ⟨(xs.zip ys).map (fun p => some (Geom.point p.1 p.2)), h.symm, ?_, ?_⟩
  · have hxl := optMap_length _ _ _ hx
    have hyl := optMap_length _ _ _ hy
    simp only [columnCells, List.length_map] at hxl hyl
    simp [List.length_zip, hxl, hyl]
  · intro g0 hg0
    rcases List.mem_map.mp hg0 with ⟨p, hp, rfl⟩
    rfl

end SplitData

namespace SplitData

/-- Claim C3 (amended): with lon- and lat-named columns present and no
accepted WKT column, one non-coercible coordinate cell makes
points_from_xy raise and the bare except abandons the whole fallback —
the Record Set is returned unchanged; when every coordinate cell coerces
(numbers, or missing values becoming NaN coordinates), every row receives
a non-null Point geometry, so missing coordinates do not yield a null
geometry either. -/
theorem lonlat_fallback_amended (f : Frame) (hwf : wfB f = true)
    (hw : tryWktCols (wktCandidates f) f = none)
    (h1 : lonCols f ≠ []) (h2 : latCols f ≠ []) :
    (badCoordB f = true → convert_to_geodf f = f) ∧
    (badCoordB f = false →
      isGDF (convert_to_geodf f) = true ∧
      (convert_to_geodf f).rows.length = f.rows.length ∧
      ∀ r ∈ (convert_to_geodf f).rows,
        notnullB (cellAt (convert_to_geodf f).cols r "geometry") = true) := by
  cases hlc : lonCols f with
  | nil => exact absurd hlc h1
  | cons lc lcs =>
  cases htc : latCols f with
  | nil => exact absurd htc h2
  | cons tc tcs =>
  have hbad : badCoordB f
      = ((columnCells f lc).any (fun x => (coerceCoord x).isNone)
        || (columnCells f tc).any (fun x => (coerceCoord x).isNone)) := by
    simp [badCoordB, hlc, htc]
  constructor
  · intro hb
    rw [hbad] at hb
    have htl : tryLonLat f = none := by
      unfold tryLonLat
      simp only [hlc, htc]
      have hb2 : (columnCells f lc).any (fun x => (coerceCoord x).isNone) = true
          ∨ (columnCells f tc).any (fun x => (coerceCoord x).isNone) = true := by
        simpa using hb
      rcases hb2 with hx | hy
      · have hxn : optMap coerceCoord (columnCells f lc) = none := (optMap_none_iff _ _).mpr hx
        simp [hxn]
      · have hyn : optMap coerceCoord (columnCells f tc) = none := (optMap_none_iff _ _).mpr hy
        cases hx2 : optMap coerceCoord (columnCells f lc) <;> simp [hyn]
    simp [convert_to_geodf, hw, htl]
  · intro hb
    rw [hbad, Bool.or_eq_false_iff] at hb
    obtain ⟨hxf, hyf⟩ := hb
    cases hx2 : optMap coerceCoord (columnCells f lc) with
    | none => exact absurd ((optMap_none_iff _ _).mp hx2) (by simp [hxf])
    | some xs =>
    cases hy2 : optMap coerceCoord (columnCells f tc) with
    | none => exact absurd ((optMap_none_iff _ _).mp hy2) (by simp [hyf])
    | some ys =>
    have htl : tryLonLat f
        = some (setGeomCol f ((xs.zip ys).map (fun p => some (Geom.point p.1 p.2)))) := by
      unfold tryLonLat
      simp only [hlc, htc, hx2, hy2]
    rcases tryLonLat_some f _ htl with ⟨gs, hgeq, hlen, hall⟩
    have hcv : convert_to_geodf f = setGeomCol f gs := by
      unfold convert_to_geodf
      simp only [hw, htl]
      exact hgeq
    rw [hcv]
    exact ⟨setGeomCol_isGDF f gs, setGeomCol_length f gs hlen,
      setGeomCol_geometry_nonnull f gs hwf hall⟩

/-- Claim C3 amended, applied at a concrete all-numeric lon/lat frame. -/
theorem lonlat_fallback_amended_witness :
    (badCoordB wF3 = true → convert_to_geodf wF3 = wF3) ∧
    (badCoordB wF3 = false →
      isGDF (convert_to_geodf wF3) = true ∧
      (convert_to_geodf wF3).rows.length = wF3.rows.length ∧
      ∀ r ∈ (convert_to_geodf wF3).rows,
        notnullB (cellAt (convert_to_geodf wF3).cols r "geometry") = true) :=
  lonlat_fallback_amended wF3 (by decide) (by decide) (by decide) (by decide)

/-- Claim C9 (amended): convert_to_geodf preserves the row count and every
column other than "geometry" — same columns in the same order with the
same values; at most one "geometry" column is appended, or an existing
column of that name is overwritten by the inferred geometries (in
particular when the WKT source column is itself named "geometry"). -/
theorem convert_frame_preservation (f : Frame) (hwf : wfB f = true) :
    ((convert_to_geodf f).cols = f.cols ∨
      (convert_to_geodf f).cols = f.cols ++ ["geometry"]) ∧
    (convert_to_geodf f).rows.length = f.rows.length ∧
    ∀ c ∈ f.cols, c ≠ "geometry" →
      columnCells (convert_to_geodf f) c = columnCells f c := by
  cases hw : tryWktCols (wktCandidates f) f with
  | some g =>
    rcases tryWktCols_some _ f g hw with ⟨gs, hgeq, hlen⟩
    have hcv : convert_to_geodf f = setGeomCol f gs := by
      unfold convert_to_geodf
      simp only [hw]
      exact hgeq
    rw [hcv]
    exact ⟨setGeomCol_cols f gs, setGeomCol_length f gs hlen,
      fun c hc hne => setGeomCol_columnCells f gs c hwf hlen hc hne⟩
  | none =>
    cases hll : tryLonLat f with
    | some g =>
      rcases tryLonLat_some f g hll with ⟨gs, hgeq, hlen, hall⟩
      have hcv : convert_to_geodf f = setGeomCol f gs := by
        unfold convert_to_geodf
        simp only [hw, hll]
        exact hgeq
      rw [hcv]
      exact ⟨setGeomCol_cols f gs, setGeomCol_length f gs hlen,
        fun c hc hne => setGeomCol_columnCells f gs c hwf hlen hc hne⟩
    | none =>
      have hcv : convert_to_geodf f = f := by
        unfold convert_to_geodf
        simp only [hw, hll]
      rw [hcv]
      exact ⟨Or.inl rfl, rfl, fun c hc hne => rfl⟩

/-- Claim C9 amended, applied at a concrete frame with a "wkt" column. -/
theorem convert_frame_preservation_witness :
    ((convert_to_geodf exF2).cols = exF2.cols ∨
      (convert_to_geodf exF2).cols = exF2.cols ++ ["geometry"]) ∧
    (convert_to_geodf exF2).rows.length = exF2.rows.length ∧
    ∀ c ∈ exF2.cols, c ≠ "geometry" →
      columnCells (convert_to_geodf exF2) c = columnCells exF2 c :=
  convert_frame_preservation exF2 (by decide)

/-- Claim C1 (amended): the merged Dataset is classified spatial iff every
contributing Record Set is spatial (the source tests all(...), not
any(...)); rows contributed by a Record Set without a "geometry" column
have a null geometry cell in the merged Dataset. -/
theorem combine_spatial_amended (dfs : List Frame) (hne : dfs ≠ []) :
    (isGDF (combine dfs) = true ↔ dfs.all isGDF = true) ∧
    ∀ d ∈ dfs, "geometry" ∉ d.cols → ∀ r ∈ d.rows,
      alignRow (combine dfs).cols d.cols r ∈ (combine dfs).rows ∧
      cellAt (combine dfs).cols (alignRow (combine dfs).cols d.cols r) "geometry"
        = Cell.vNull := by
  constructor
  · by_cases h : dfs.all isGDF = true <;> simp [combine, isGDF, h]
  · intro d hd hgeo r hr
    constructor
    · exact List.mem_flatMap.mpr ⟨d, hd, List.mem_map.mpr ⟨r, hr, rfl⟩⟩
    · unfold alignRow
      rw [cellAt_map_self]
      by_cases hm : "geometry" ∈ (combine dfs).cols
      · rw [if_pos hm]
        exact cellAt_not_mem d.cols r "geometry" hgeo
      · rw [if_neg hm]

/-- Claim C1 amended, applied at one spatial and one plain Record Set. -/
theorem combine_spatial_amended_witness :
    ([exSp, exPl] ≠ ([] : List Frame)) ∧
    ((isGDF (combine [exSp, exPl]) = true ↔ [exSp, exPl].all isGDF = true) ∧
     ∀ d ∈ [exSp, exPl], "geometry" ∉ d.cols → ∀ r ∈ d.rows,
       alignRow (combine [exSp, exPl]).cols d.cols r ∈ (combine [exSp, exPl]).rows ∧
       cellAt (combine [exSp, exPl]).cols
         (alignRow (combine [exSp, exPl]).cols d.cols r) "geometry" = Cell.vNull) :=
  ⟨by decide, combine_spatial_amended [exSp, exPl] (by decide)⟩

end SplitData

namespace SplitData

theorem my_filter_filter {α : Type} (l : List α) (p q : α → Bool) :
    (l.filter p).filter q = l.filter (fun a => p a && q a) := by
  induction l with
  | nil => rfl
  | cons a as ih =>
    by_cases hp : p a = true <;> by_cases hq : q a = true <;>
      simp [List.filter_cons, hp, hq, ih]

theorem filter_swap {α : Type} (l : List α) (p q : α → Bool) :
    (l.filter p).filter q = (l.filter q).filter p := by
  rw [my_filter_filter, my_filter_filter]
  exact List.filter_congr (fun a _ => by rw [Bool.and_comm])

theorem filter_disjoint_perm {α : Type} (l : List α) (p q : α → Bool)
    (h : ∀ a ∈ l, p a = true → q a = false) :
    (l.filter p ++ l.filter q).Perm (l.filter (fun a => p a || q a)) := by
  induction l with
  | nil => simp
  | cons a as ih =>
    have ih2 := ih (fun b hb => h b (List.mem_cons_of_mem _ hb))
    by_cases hp : p a = true
    · have hq : q a = false := h a (List.mem_cons_self _ _) hp
      rw [List.filter_cons, List.filter_cons, List.filter_cons,
        if_pos hp, if_neg (by simp [hq]), if_pos (by simp [hp])]
      exact ih2.cons a
    · have hp2 : p a = false := by simpa using hp
      by_cases hq : q a = true
      · rw [List.filter_cons, List.filter_cons, List.filter_cons,
          if_neg (by simp [hp2]), if_pos hq, if_pos (by simp [hq])]
        exact List.Perm.trans List.perm_middle (ih2.cons a)
      · have hq2 : q a = false := by simpa using hq
        rw [List.filter_cons, List.filter_cons, List.filter_cons,
          if_neg (by simp [hp2]), if_neg (by simp [hq2]), if_neg (by simp [hp2, hq2])]
        exact ih2

theorem contains_false_of_not_mem {l : List Cell} {a : Cell} (h : a ∉ l) :
    l.contains a = false := by
  cases hc : l.contains a with
  | false => rfl
  | true => exact absurd (List.mem_of_elem_eq_true hc) h

theorem contains_true_of_mem {l : List Cell} {a : Cell} (h : a ∈ l) :
    l.contains a = true :=
  List.elem_eq_true_of_mem h

theorem flatMap_filter_key_perm {α : Type} (key : α → Cell) (keys : List Cell) (l : List α)
    (hnd : keys.Nodup) :
    (keys.flatMap (fun v => l.filter (fun a => key a == v))).Perm
      (l.filter (fun a => keys.contains (key a))) := by
  induction keys with
  | nil => simp
  | cons v ks ih =>
    have hvk : v ∉ ks := (List.nodup_cons.mp hnd).1
    have ih2 := ih (List.nodup_cons.mp hnd).2
    rw [List.flatMap_cons]
    have hdisj : ∀ a ∈ l, (key a == v) = true → ks.contains (key a) = false := by
      intro a _ hkv
      rw [eq_of_beq hkv]
      exact contains_false_of_not_mem hvk
    refine ((List.Perm.append_left _ ih2).trans (filter_disjoint_perm l _ _ hdisj)).trans ?_
    have heq : l.filter (fun a => (key a == v) || ks.contains (key a))
        = l.filter (fun a => (v :: ks).contains (key a)) :=
      List.filter_congr (fun a _ => by rw [List.contains_cons])
    rw [heq]

theorem groupbyF_map_fst (f : Frame) (k : String) :
    (groupbyF f k).map Prod.fst = sortedKeys f k := by
  unfold groupbyF
  rw [List.map_map]
  exact List.map_id' _

theorem mem_sortedKeys (f : Frame) (k : String) (v : Cell) :
    v ∈ sortedKeys f k ↔ (v ∈ keyCells f k ∧ notnullB v = true) := by
  unfold sortedKeys
  rw [(List.perm_insertionSort cellLe _).mem_iff]
  rw [List.mem_dedup, List.mem_filter]

theorem sortedKeys_nodup (f : Frame) (k : String) : (sortedKeys f k).Nodup :=
  ((List.perm_insertionSort cellLe _).nodup_iff).mpr (List.nodup_dedup _)

theorem contains_sortedKeys (f : Frame) (k : String) (r : List Cell) (hr : r ∈ f.rows) :
    (sortedKeys f k).contains (cellAt f.cols r k) = notnullB (cellAt f.cols r k) := by
  have hmem : cellAt f.cols r k ∈ keyCells f k := List.mem_map_of_mem _ hr
  by_cases hn : notnullB (cellAt f.cols r k) = true
  · rw [hn]
    exact contains_true_of_mem ((mem_sortedKeys f k _).mpr ⟨hmem, hn⟩)
  · have hn2 : notnullB (cellAt f.cols r k) = false := by simpa using hn
    rw [hn2]
    exact contains_false_of_not_mem (fun hm => hn ((mem_sortedKeys f k _).mp hm).2)

theorem leaf_partition_one (f : Frame) (k : String) :
    (leafRows f k none).Perm
      (f.rows.filter (fun r => notnullB (cellAt f.cols r k))) := by
  have hshape : leafRows f k none
      = (sortedKeys f k).flatMap
          (fun v => f.rows.filter (fun r => cellAt f.cols r k == v)) := by
    unfold leafRows leafGroups groupbyF
    rw [List.map_map, List.flatMap_map]
    rfl
  rw [hshape]
  refine (flatMap_filter_key_perm (fun r => cellAt f.cols r k) (sortedKeys f k) f.rows
    (sortedKeys_nodup f k)).trans ?_
  rw [List.filter_congr (fun r hr => contains_sortedKeys f k r hr)]

theorem leaf_partition_two (f : Frame) (k1 kk : String) :
    (leafRows f k1 (some kk)).Perm
      (f.rows.filter (fun r =>
        notnullB (cellAt f.cols r k1) && notnullB (cellAt f.cols r kk))) := by
  have hshape : leafRows f k1 (some kk)
      = (groupbyF f k1).flatMap
          (fun p => ((groupbyF p.2 kk).map Prod.snd).flatMap Frame.rows) := by
    unfold leafRows leafGroups
    rw [List.flatMap_assoc]
  rw [hshape]
  have step1 : ∀ p ∈ groupbyF f k1,
      (((groupbyF p.2 kk).map Prod.snd).flatMap Frame.rows).Perm
        ((f.rows.filter (fun r => notnullB (cellAt f.cols r kk))).filter
          (fun r => cellAt f.cols r k1 == p.1)) := by
    intro p hp
    rcases List.mem_map.mp (by simpa [groupbyF] using hp) with ⟨v, hv, rfl⟩
    refine (leaf_partition_one _ kk).trans ?_
    rw [filter_swap]
  refine (List.Perm.flatMap_left _ step1).trans ?_
  have hshape2 : (groupbyF f k1).flatMap
      (fun p => (f.rows.filter (fun r => notnullB (cellAt f.cols r kk))).filter
        (fun r => cellAt f.cols r k1 == p.1))
      = (sortedKeys f k1).flatMap
          (fun v => (f.rows.filter (fun r => notnullB (cellAt f.cols r kk))).filter
            (fun r => cellAt f.cols r k1 == v)) := by
    unfold groupbyF
    rw [List.flatMap_map]
  rw [hshape2]
  refine (flatMap_filter_key_perm (fun r => cellAt f.cols r k1) (sortedKeys f k1)
    (f.rows.filter (fun r => notnullB (cellAt f.cols r kk))) (sortedKeys_nodup f k1)).trans ?_
  have hcongr : (f.rows.filter (fun r => notnullB (cellAt f.cols r kk))).filter
      (fun r => (sortedKeys f k1).contains (cellAt f.cols r k1))
      = (f.rows.filter (fun r => notnullB (cellAt f.cols r kk))).filter
        (fun r => notnullB (cellAt f.cols r k1)) :=
    List.filter_congr (fun r hr => contains_sortedKeys f k1 r (List.mem_filter.mp hr).1)
  rw [hcongr, my_filter_filter]
  rw [List.filter_congr (fun r _ => Bool.and_comm _ _)]

/-- Claim C4 (amended): the leaf groups partition exactly the rows whose
grouping key values are non-null — each such row lands in exactly one leaf
group; rows carrying a null key are dropped by groupby (dropna=True
default) and appear in no group. -/
theorem groupby_partition_amended (f : Frame) (k1 : String) (k2 : Option String) :
    (leafRows f k1 k2).Perm (f.rows.filter (leafPredicate f.cols k1 k2)) := by
  cases k2 with
  | none =>
    refine (leaf_partition_one f k1).trans ?_
    have heq : f.rows.filter (fun r => notnullB (cellAt f.cols r k1))
        = f.rows.filter (leafPredicate f.cols k1 none) :=
      List.filter_congr (fun r _ => by simp [leafPredicate])
    rw [heq]
  | some kk =>
    refine (leaf_partition_two f k1 kk).trans ?_
    have heq : f.rows.filter
        (fun r => notnullB (cellAt f.cols r k1) && notnullB (cellAt f.cols r kk))
        = f.rows.filter (leafPredicate f.cols k1 (some kk)) :=
      List.filter_congr (fun r _ => by simp [leafPredicate])
    rw [heq]

/-- Claim C4 amended, applied at a concrete two-level grouping. -/
theorem groupby_partition_amended_witness :
    (leafRows exF10 "a" (some "b")).Perm
      (exF10.rows.filter (leafPredicate exF10.cols "a" (some "b"))) :=
  groupby_partition_amended exF10 "a" (some "b")

/-- Claim C5 (amended): groupby iterates the partitions in ascending
sorted order of the distinct non-null key values (sort=True default), not
in first-seen order; key2 sub-partitions go through the same groupby and
share the property. -/
theorem groupby_sorted_amended (f : Frame) (k : String) :
    List.Sorted cellLe ((groupbyF f k).map Prod.fst) ∧
    ((groupbyF f k).map Prod.fst).Nodup ∧
    ∀ v, v ∈ (groupbyF f k).map Prod.fst ↔ (v ∈ keyCells f k ∧ notnullB v = true) := by
  rw [groupbyF_map_fst]
  exact ⟨List.sorted_insertionSort cellLe _, sortedKeys_nodup f k,
    fun v => mem_sortedKeys f k v⟩

/-- Claim C5 amended, applied at a concrete frame. -/
theorem groupby_sorted_amended_witness :
    List.Sorted cellLe ((groupbyF exF5 "k").map Prod.fst) ∧
    ((groupbyF exF5 "k").map Prod.fst).Nodup ∧
    ∀ v, v ∈ (groupbyF exF5 "k").map Prod.fst ↔
      (v ∈ keyCells exF5 "k" ∧ notnullB v = true) :=
  groupby_sorted_amended exF5 "k"

end SplitData

namespace SplitData

theorem dropGeom_no_geometry (g : Frame) : "geometry" ∉ (dropGeom g).cols := by
  intro hm
  have hpred := (List.mem_filter.mp hm).2
  simp at hpred

theorem mem_groupArtifacts_cases {isSp : Bool} {fmts : List Format} {base : String}
    {g : Frame} {a : Artifact} (h : a ∈ groupArtifacts isSp fmts base g) :
    (isTab a.format = true ∧ a.cols = (dropGeom g).cols) ∨
    (isTab a.format = false ∧ isSp = true ∧ a.cols = g.cols ∧
      a.rows = (filterGeom g).rows ∧ a.rows ≠ []) := by
  unfold groupArtifacts at h
  rcases List.mem_append.mp h with h12 | h3
  · rcases List.mem_append.mp h12 with h1 | h2
    · by_cases hc : fmts.contains Format.csv = true
      · rw [if_pos hc, List.mem_singleton] at h1
        subst h1
        exact Or.inl ⟨rfl, rfl⟩
      · rw [if_neg hc] at h1
        simp at h1
    · by_cases he : fmts.contains Format.excel = true
      · rw [if_pos he, List.mem_singleton] at h2
        subst h2
        exact Or.inl ⟨rfl, rfl⟩
      · rw [if_neg he] at h2
        simp at h2
  · by_cases hs : isSp = true
    · rw [if_pos hs] at h3
      by_cases hemp : (filterGeom g).rows.isEmpty = true
      · rw [if_pos hemp] at h3
        simp at h3
      · rw [if_neg hemp] at h3
        have hnonempty : (filterGeom g).rows ≠ [] := by
          intro hnil
          exact hemp (List.isEmpty_iff.mpr hnil)
        rcases List.mem_append.mp h3 with h4 | h5
        · by_cases hgj : fmts.contains Format.geojson = true
          · rw [if_pos hgj, List.mem_singleton] at h4
            subst h4
            exact Or.inr ⟨rfl, hs, rfl, rfl, hnonempty⟩
          · rw [if_neg hgj] at h4
            simp at h4
        · by_cases hk : fmts.contains Format.kml = true
          · rw [if_pos hk, List.mem_singleton] at h5
            subst h5
            exact Or.inr ⟨rfl, hs, rfl, rfl, hnonempty⟩
          · rw [if_neg hk] at h5
            simp at h5
    · rw [if_neg hs] at h3
      simp at h3

theorem mem_runExport (f : Frame) (k1 : String) (k2 : Option String) (fmts : List Format)
    (a : Artifact) (ha : a ∈ runExport f k1 k2 fmts) :
    ∃ base : String, ∃ g : Frame, g.cols = f.cols ∧
      a ∈ groupArtifacts (isGDF f) fmts base g := by
  unfold runExport at ha
  rcases List.mem_flatMap.mp ha with ⟨p, hp, hmem⟩
  have hpcols : p.2.cols = f.cols := by
    rcases List.mem_map.mp (by simpa [groupbyF] using hp) with ⟨v, hv, rfl⟩
    rfl
  cases k2 with
  | none => exact ⟨_, p.2, hpcols, hmem⟩
  | some kk =>
    rcases List.mem_flatMap.mp hmem with ⟨q, hq, hmem2⟩
    have hqcols : q.2.cols = p.2.cols := by
      rcases List.mem_map.mp (by simpa [groupbyF] using hq) with ⟨v, hv, rfl⟩
      rfl
    exact ⟨_, q.2, hqcols.trans hpcols, hmem2⟩

/-- Claim C7: for every leaf group and every requested tabular format, the
serialized artifact contains no "geometry" column, whether or not the
Dataset is spatial — tabular exports always go through the drop. -/
theorem tabular_no_geometry (f : Frame) (k1 : String) (k2 : Option String)
    (fmts : List Format) (a : Artifact)
    (ha : a ∈ runExport f k1 k2 fmts) (hfmt : isTab a.format = true) :
    "geometry" ∉ a.cols := by
  rcases mem_runExport f k1 k2 fmts a ha with ⟨base, g, hgc, hmem⟩
  rcases mem_groupArtifacts_cases hmem with ⟨_, hcols⟩ | ⟨hft, _⟩
  · rw [hcols]
    exact dropGeom_no_geometry g
  · simp [hfmt] at hft

/-- Claim C7 applied at a concrete spatial frame and its CSV artifact. -/
theorem tabular_no_geometry_witness :
    wArt7 ∈ runExport wF7 "k" none [Format.csv] ∧ isTab wArt7.format = true ∧
    "geometry" ∉ wArt7.cols :=
  ⟨by decide, by decide,
    tabular_no_geometry wF7 "k" none [Format.csv] wArt7 (by decide) (by decide)⟩

/-- Claim C8: requesting a spatial format on a non-spatial Dataset emits
exactly one advisory and yields no spatial artifact for any group, with no
fatal error; on a spatial Dataset every exported spatial artifact consists
of a leaf group filtered to its non-null-geometry rows — an empty filter
result silently omits that artifact while the remaining groups are still
processed. -/
theorem spatial_format_handling (f : Frame) (k1 : String) (k2 : Option String)
    (fmts : List Format) :
    (spatialRequested fmts = true → isGDF f = false →
      advisoryCount f fmts = 1 ∧
      ∀ a ∈ runExport f k1 k2 fmts, isTab a.format = true) ∧
    (isGDF f = true →
      advisoryCount f fmts = 0 ∧
      ∀ a ∈ runExport f k1 k2 fmts, isTab a.format = false →
        a.rows ≠ [] ∧ ∀ r ∈ a.rows, notnullB (cellAt a.cols r "geometry") = true) := by
  constructor
  · intro hreq hsp
    constructor
    · simp [advisoryCount, hreq, hsp]
    · intro a ha
      rcases mem_runExport f k1 k2 fmts a ha with ⟨base, g, hgc, hmem⟩
      rcases mem_groupArtifacts_cases hmem with ⟨ht, _⟩ | ⟨_, hs, _⟩
      · exact ht
      · rw [hsp] at hs
        exact absurd hs (by simp)
  · intro hsp
    constructor
    · simp [advisoryCount, hsp]
    · intro a ha hfmt
      rcases mem_runExport f k1 k2 fmts a ha with ⟨base, g, hgc, hmem⟩
      rcases mem_groupArtifacts_cases hmem with ⟨ht, _⟩ | ⟨_, _, hcols, hrows, hnn⟩
      · simp [hfmt] at ht
      · refine ⟨hnn, ?_⟩
        intro r hr
        rw [hrows] at hr
        have hr2 : r ∈ g.rows.filter (fun r => notnullB (cellAt g.cols r "geometry")) := hr
        have hpred := (List.mem_filter.mp hr2).2
        rw [hcols]
        exact hpred

/-- Claim C8 applied at a concrete spatial frame with one group lacking
geometry: its GeoJSON artifact is omitted, the other group's is present
with only non-null-geometry rows. -/
theorem spatial_format_handling_witness :
    ((spatialRequested [Format.geojson] = true → isGDF wF8 = false →
      advisoryCount wF8 [Format.geojson] = 1 ∧
      ∀ a ∈ runExport wF8 "k" none [Format.geojson], isTab a.format = true) ∧
     (isGDF wF8 = true →
      advisoryCount wF8 [Format.geojson] = 0 ∧
      ∀ a ∈ runExport wF8 "k" none [Format.geojson], isTab a.format = false →
        a.rows ≠ [] ∧ ∀ r ∈ a.rows, notnullB (cellAt a.cols r "geometry") = true)) :=
  spatial_format_handling wF8 "k" none [Format.geojson]

end SplitData
